import Mathlib

/-!
Verification of the kashibotto lyrics-enrichment pipeline.

The definitions below are shallow embeddings of the TypeScript services in
`backend/src/services` (processor.ts, dictionary.ts, segmentation.ts,
lyrics.ts).  External effects (the morphological analyzer, the Jisho
dictionary API, the Genius lyrics provider) are modelled as explicit oracle
parameters; stateful code is modelled by explicit state passing, and the
remote requests a run performs are recorded in an explicit trace so that
claims about call counts can be stated.  Strings are modelled through their
character sequences, so the JavaScript `startsWith` and `endsWith` string
predicates are rendered as prefix and suffix tests on `String.data`.
-/

namespace Kashibotto

/-- JavaScript `s.startsWith(p)` as a prefix test on character sequences. -/
def strStartsWith (s p : String) : Bool :=
  p.data.isPrefixOf s.data

/-- JavaScript `s.endsWith(p)` as a suffix test on character sequences. -/
def strEndsWith (s p : String) : Bool :=
  p.data.isSuffixOf s.data

/-! ## Segment model (processor.ts) -/

/-- The `Segment` interface of backend/src/types.ts (staged as
src/unnamed/part_007, lines 93-98): `{text: string, reading: string,
translation: string, dictionary?: string[]}` — the optional `dictionary`
field becomes `Option`. -/
structure Segment where
  text : String
  reading : String
  translation : String
  dictionary : Option (List String)
deriving DecidableEq, Repr

/-- The fixed allow-list of inflectional continuations from
`connectSmallTsuSegments` (processor.ts lines 230-237). -/
def verbEndings : List String :=
  ["て", "た", "だ",
   "で", "ど",
   "に", "の", "は", "が", "を",
   "つつ", "ながら", "たり", "り",
   "う", "よう", "まい", "ず", "ぬ",
   "ね", "な", "よ", "わ", "さ"]

/-- The merge condition on the following segment:
`verbEndings.some(ending => nextSegment.text.startsWith(ending))`
(processor.ts line 239). -/
def shouldConnect (next : Segment) : Bool :=
  verbEndings.any (fun ending => strStartsWith next.text ending)

/-- The merged segment built when a pair is connected (processor.ts lines
243-251): text and reading are concatenated, the translations are joined
with a single space, and the two dictionary lists (each defaulting to `[]`
when absent) are concatenated. -/
def connectedSegment (a b : Segment) : Segment :=
  { text := a.text ++ b.text
    reading := a.reading ++ b.reading
    translation := a.translation ++ " " ++ b.translation
    dictionary := some (a.dictionary.getD [] ++ b.dictionary.getD []) }

/-- The small-tsu merge pass `connectSmallTsuSegments` (processor.ts lines
215-267).  The while loop advancing `i` by 1 or 2 is rendered as the
evident recursion: when the current segment's text ends with っ, a next
segment exists, and the next segment starts with an allow-listed
continuation, the pair is replaced by `connectedSegment` and the scan
resumes after the pair; otherwise the current segment is emitted unchanged
and the scan advances by one. -/
def connectSmallTsuSegments : List Segment → List Segment
  | [] => []
  | [s] => [s]
  | a :: b :: rest =>
    if strEndsWith a.text "っ" && shouldConnect b then
      connectedSegment a b :: connectSmallTsuSegments rest
    else
      a :: connectSmallTsuSegments (b :: rest)

/-- Concatenation of the `text` fields of a segment list. -/
def textConcat (l : List Segment) : String :=
  l.foldr (fun s acc => s.text ++ acc) ""

/-- Concatenation of the `reading` fields of a segment list. -/
def readingConcat (l : List Segment) : String :=
  l.foldr (fun s acc => s.reading ++ acc) ""

/-! Concrete segments used to evaluate the merge.  Note the allow-list is
matched against the START of the following segment's text, so a merging
pair must have its second member begin with an ending such as て. -/

def hikSeg : Segment :=
  { text := "引っ", reading := "ひっ", translation := "pull", dictionary := some ["to pull"] }

def teSeg : Segment :=
  { text := "て", reading := "て", translation := "te", dictionary := some ["te-form"] }

def inuSeg : Segment :=
  { text := "犬", reading := "いぬ", translation := "dog", dictionary := some ["dog"] }

def tsuSeg : Segment :=
  { text := "っ", reading := "っ", translation := "っ", dictionary := none }

/-! ## Shared string helpers -/

/-- The JavaScript whitespace class recognised by `trim` and `\s`. -/
def isWsJs (c : Char) : Bool :=
  [9, 10, 11, 12, 13, 32, 0x00A0, 0x1680, 0x2028, 0x2029,
   0x202F, 0x205F, 0x3000, 0xFEFF].contains c.toNat ||
  (0x2000 ≤ c.toNat && c.toNat ≤ 0x200A)

/-- JavaScript `String.prototype.trim` on the character sequence. -/
def strTrim (s : String) : String :=
  String.mk (((s.data.dropWhile isWsJs).reverse.dropWhile isWsJs).reverse)

/-- JavaScript `a || b` for an optional string: `undefined` and the empty
string are both falsy and fall through to `b`. -/
def jsStrOr (a : Option String) (b : String) : String :=
  match a with
  | some s => if s = "" then b else s
  | none => b

/-! ## Dictionary model (dictionary.ts) -/

/-- A dictionary lookup result (the `DictionaryResult` interface,
dictionary.ts lines 6-11). -/
structure DictionaryResult where
  word : String
  definitions : List String
  partOfSpeech : List String
  readings : List String
deriving DecidableEq, Repr

/-- A cache entry (the `CacheEntry` interface, dictionary.ts lines 13-19):
the stored result fields plus the write timestamp.  The interface has no
expiry field. -/
structure CacheEntry where
  word : String
  definitions : List String
  partOfSpeech : List String
  readings : List String
  timestamp : Nat
deriving DecidableEq, Repr

/-- The dictionary cache (dictionary.ts lines 21-24): a keyed object of
entries, modelled as an association list in property-insertion order. -/
structure DictionaryCache where
  entries : List (String × CacheEntry)
  lastUpdated : Nat
deriving DecidableEq, Repr

/-- Lookup of the object property `cache.entries[word]`. -/
def lookupEntry (cache : DictionaryCache) (word : String) : Option CacheEntry :=
  (cache.entries.find? (fun p => p.1 == word)).map (fun p => p.2)

/-- JavaScript object property write `entries[word] = e`: replace in place
when the key exists, append otherwise. -/
def setEntry (entries : List (String × CacheEntry)) (word : String) (e : CacheEntry) :
    List (String × CacheEntry) :=
  if entries.any (fun p => p.1 == word) then
    entries.map (fun p => if p.1 == word then (word, e) else p)
  else
    entries ++ [(word, e)]

/-- Character test behind `isJapaneseWord` (dictionary.ts lines 132-141):
Hiragana U+3040-U+309F, Katakana U+30A0-U+30FF, Kanji U+4E00-U+9FAF. -/
def isJapaneseChar (c : Char) : Bool :=
  (0x3040 ≤ c.toNat && c.toNat ≤ 0x309F) ||
  (0x30A0 ≤ c.toNat && c.toNat ≤ 0x30FF) ||
  (0x4E00 ≤ c.toNat && c.toNat ≤ 0x9FAF)

/-- `isJapaneseWord` (dictionary.ts lines 132-141): the regex test succeeds
exactly when some character lies in a Japanese range (so it fails on the
empty string, matching the `!word` falsiness guard). -/
def isJapaneseWord (word : String) : Bool :=
  word.data.any isJapaneseChar

/-- `getFromCache` (dictionary.ts lines 210-222): return the stored entry's
result fields when the key is present, `null` otherwise.  Neither the
clock nor the entry's `timestamp` is consulted. -/
def getFromCache (cache : DictionaryCache) (word : String) : Option DictionaryResult :=
  match lookupEntry cache word with
  | some entry =>
    some { word := entry.word, definitions := entry.definitions,
           partOfSpeech := entry.partOfSpeech, readings := entry.readings }
  | none => none

/-- A dictionary-cache read issued while the wall clock shows `now`.
`getFromCache` takes no time input and reads no clock, so the read
performed at any time is the plain `getFromCache` lookup; the extra
parameter only records the claim's notion of the current time. -/
def getFromCacheAt (cache : DictionaryCache) (word : String) (now : Nat) :
    Option DictionaryResult :=
  match now with
  | _ => getFromCache cache word

/-- `addToCache` (dictionary.ts lines 176-205): store the result under the
word with the current timestamp.  The subsequent save to the storage
backend copies the cache out of process and does not change the in-memory
map. -/
def addToCache (cache : DictionaryCache) (word : String) (result : DictionaryResult)
    (now : Nat) : DictionaryCache :=
  { cache with
    entries := setEntry cache.entries word
      { word := result.word, definitions := result.definitions,
        partOfSpeech := result.partOfSpeech, readings := result.readings,
        timestamp := now } }

/-- The first element of `firstResult.japanese` in a parsed Jisho response
(dictionary.ts line 279): both fields may be missing. -/
structure JishoJapanese where
  word : Option String
  reading : Option String
deriving DecidableEq, Repr

/-- The first element of `firstResult.senses` in a parsed Jisho response
(dictionary.ts line 280). -/
structure JishoSenses where
  englishDefinitions : Option (List String)
  partsOfSpeech : Option (List String)
deriving DecidableEq, Repr

/-- One element of `response.data.data`. -/
structure JishoDatum where
  japanese : List JishoJapanese
  senses : List JishoSenses
deriving DecidableEq, Repr

/-- Outcome of one Jisho API request: a parsed response body, or a thrown
request error carrying the optional HTTP status (429 marks a rate limit;
the status only changes the backoff delay, which is pure waiting). -/
inductive JishoResponse where
  | ok (data : List JishoDatum)
  | fail (status : Option Nat)
deriving DecidableEq, Repr

/-- Oracle for the remote dictionary provider: the response to the request
for a given word on a given attempt number. -/
def JishoNet : Type := String → Nat → JishoResponse

/-- `maxRetries` (dictionary.ts line 103). -/
def maxRetries : Nat := 3

/-- The generic fallback entry for words Jisho does not know
(dictionary.ts lines 324-329). -/
def fallbackResult (cleanWord : String) : DictionaryResult :=
  { word := cleanWord
    definitions := [ "No definition available" ]
    partOfSpeech := [ "unknown" ]
    readings := [cleanWord] }

/-- The Jisho retry loop of `lookupWord` (dictionary.ts lines 257-320),
returning the found result (if any) together with the attempt numbers that
issued a request.  When the first datum of a parsed response has both a
japanese entry and a senses entry, the result is built and returned; on
any other parsed response the loop breaks (the word is not in Jisho); on a
thrown request error the loop retries while `attempt < maxRetries`.  The
throttling and backoff sleeps are pure delays.  `remaining` counts the
attempts left, keeping the recursion structural; the loop is entered with
`attempt = 1` and `remaining = maxRetries`. -/
def jishoAttempts (net : Nat → JishoResponse) (cleanWord : String) :
    Nat → Nat → Option DictionaryResult × List Nat
  | _, 0 => (none, [])
  | attempt, remaining + 1 =>
    match net attempt with
    | .ok data =>
      match data.head? with
      | some d0 =>
        match d0.japanese.head?, d0.senses.head? with
        | some japanese, some senses =>
          (some { word := cleanWord
                  definitions := senses.englishDefinitions.getD [ "No definition available" ]
                  partOfSpeech := senses.partsOfSpeech.getD [ "unknown" ]
                  readings := [ jsStrOr japanese.reading (jsStrOr japanese.word cleanWord) ] },
           [attempt])
        | _, _ => (none, [attempt])
      | none => (none, [attempt])
    | .fail _ =>
      if attempt < maxRetries then
        let r1 := jishoAttempts net cleanWord (attempt + 1) remaining
        (r1.1, attempt :: r1.2)
      else (none, [attempt])

/-- Outcome of `lookupWord`: the returned value, the updated cache, and the
remote requests issued, as (word, attempt) pairs. -/
structure LookupOutcome where
  result : Option DictionaryResult
  cache : DictionaryCache
  requests : List (String × Nat)
deriving Repr

/-- `lookupWord` (dictionary.ts lines 225-334): input guards, cache check,
Jisho retry loop, and the fallback write for words Jisho does not know
(both a successful result and the fallback are written to the cache). -/
def lookupWord (net : JishoNet) (now : Nat) (cache : DictionaryCache) (word : String) :
    LookupOutcome :=
  let cleanWord := strTrim word
  if cleanWord = "" then ⟨none, cache, []⟩
  else if cleanWord.length == 1 && !isJapaneseWord cleanWord then ⟨none, cache, []⟩
  else if !isJapaneseWord cleanWord then ⟨none, cache, []⟩
  else
    match getFromCache cache cleanWord with
    | some cachedResult => ⟨some cachedResult, cache, []⟩
    | none =>
      match jishoAttempts (net cleanWord) cleanWord 1 maxRetries with
      | (some result, attempts) =>
        ⟨some result, addToCache cache cleanWord result now,
         attempts.map (fun a => (cleanWord, a))⟩
      | (none, attempts) =>
        ⟨some (fallbackResult cleanWord),
         addToCache cache cleanWord (fallbackResult cleanWord) now,
         attempts.map (fun a => (cleanWord, a))⟩

/-- Phase 1 of `lookupBatch` (dictionary.ts lines 349-369): walk the words
with their indices, resolving non-Japanese words to `null` and cache hits
to their cached value, and queueing the rest as (index, word) pairs for
the API phase.  The results list mirrors the
`new Array(words.length).fill(null)` initialisation with cache hits
written at their positions. -/
def batchClassify (cache : DictionaryCache) :
    List String → Nat → List (Option DictionaryResult) × List (Nat × String)
  | [], _ => ([], [])
  | w :: ws, i =>
    let r1 := batchClassify cache ws (i + 1)
    if !isJapaneseWord w then (none :: r1.1, r1.2)
    else
      match getFromCache cache w with
      | some cachedResult => (some cachedResult :: r1.1, r1.2)
      | none => (none :: r1.1, (i, w) :: r1.2)

/-- Phase 2 of `lookupBatch` (dictionary.ts lines 372-405): resolve the
queued words through `lookupWord`, writing each result back at its queued
index.  The source runs the queue in slices of `batchSize = 8` through
`Promise.all` with a pause between slices; the pauses are pure delays, and
the model fixes the sequential left-to-right schedule, one admissible
interleaving of the per-slice concurrency (the properties proved below do
not depend on the schedule, and `lookupWord` re-checks the cache itself,
which is what makes duplicate queued words safe in every schedule). -/
def batchResolve (net : JishoNet) (now : Nat) :
    List (Nat × String) → DictionaryCache → List (Option DictionaryResult) →
    List (Option DictionaryResult) × DictionaryCache × List (String × Nat)
  | [], cache, results => (results, cache, [])
  | (i, w) :: queue, cache, results =>
    let out := lookupWord net now cache w
    let r1 := batchResolve net now queue out.cache (results.set i out.result)
    (r1.1, r1.2.1, out.requests ++ r1.2.2)

/-- `lookupBatch` (dictionary.ts lines 336-418): returns the positional
results, the final cache, and the remote requests issued. -/
def lookupBatch (net : JishoNet) (now : Nat) (cache : DictionaryCache)
    (words : List String) :
    List (Option DictionaryResult) × DictionaryCache × List (String × Nat) :=
  if words = [] then ([], cache, [])
  else
    let classified := batchClassify cache words 0
    batchResolve net now classified.2 cache classified.1

/-- Well-formedness of the cache map: every entry records the key it is
stored under as its `word` field.  `addToCache` is the only writer and is
always called with `result.word` equal to the key. -/
def WFCache (cache : DictionaryCache) : Prop :=
  ∀ p ∈ cache.entries, p.2.word = p.1

/-- Concrete cache holding one entry written at timestamp 0, used to
evaluate the cache-read theorems. -/
def catCache : DictionaryCache :=
  { entries := [( "猫",
      { word := "猫", definitions := [ "cat" ], partOfSpeech := [ "noun" ],
        readings := [ "ねこ" ], timestamp := 0 } )]
    lastUpdated := 0 }

/-! ## Segmentation model (segmentation.ts) -/

/-- The `MorphemeData` interface of backend/src/types.ts (staged as
src/unnamed/part_007, lines 104-108): `{surface: string, pos: string,
reading: string}`. -/
structure MorphemeData where
  surface : String
  pos : String
  reading : String
deriving DecidableEq, Repr

/-- The `feature` record of a MeCab token as used by `analyzeWithMeCab`
(segmentation.ts lines 32-35): both fields may be missing. -/
structure MeCabFeature where
  pos : Option String
  reading : Option String
deriving DecidableEq, Repr

/-- A MeCab token as used by `analyzeWithMeCab`: surface form, token
status, and optional feature record. -/
structure MeCabToken where
  surface : Option String
  stat : String
  feature : Option MeCabFeature
deriving DecidableEq, Repr

/-- Oracle for the external morphological analyzer: `none` models a thrown
tokenizer error. -/
def MeCabOracle : Type := String → Option (List MeCabToken)

/-- The POS translation table of `mapMeCabPosToSimple`
(segmentation.ts lines 79-109). -/
def posMap : List (String × String) :=
  [( "名詞", "noun" ), ( "動詞", "verb" ),
   ( "形容詞", "adjective" ), ( "形容動詞", "adjective" ),
   ( "副詞", "adverb" ),
   ( "助詞", "particle" ), ( "助動詞", "particle" ),
   ( "接続詞", "conjunction" ), ( "感動詞", "interjection" ),
   ( "接頭詞", "prefix" ), ( "接尾辞", "suffix" ),
   ( "記号", "symbol" ), ( "その他", "other" ),
   ( "フィラー", "filler" ), ( "未知語", "unknown" )]

/-- `mapMeCabPosToSimple` (segmentation.ts lines 79-109): map through the
table, defaulting to "unknown". -/
def mapMeCabPosToSimple (mecabPos : String) : String :=
  (posMap.lookup mecabPos).getD "unknown"

/-- `analyzeWithMeCab` (segmentation.ts lines 12-58): `none` models the
`null` returns (thrown tokenizer error, or an empty token list); otherwise
keep NORMAL and UNKNOWN tokens, build morphemes with `token.surface || ''`,
the mapped `token.feature?.pos || 'UNKNOWN'`, and
`token.feature?.reading || surface`, then drop morphemes whose surface is
empty after trimming. -/
def analyzeWithMeCab (mecab : MeCabOracle) (text : String) : Option (List MorphemeData) :=
  match mecab text with
  | none => none
  | some tokens =>
    if tokens = [] then none
    else
      some (((tokens.filter (fun t => t.stat == "NORMAL" || t.stat == "UNKNOWN")).map
        (fun t =>
          let surface := t.surface.getD ""
          { surface := surface
            pos := mapMeCabPosToSimple (jsStrOr (t.feature.bind (fun f => f.pos)) "UNKNOWN")
            reading := jsStrOr (t.feature.bind (fun f => f.reading)) surface })).filter
        (fun m => strTrim m.surface ≠ ""))

/-- `isRomanizedText` (segmentation.ts lines 61-64): true when no character
is in a Japanese range. -/
def isRomanizedText (text : String) : Bool :=
  !(text.data.any isJapaneseChar)

/-- The punctuation class of the `tokenizeRomanized` splitting regex
(segmentation.ts line 69). -/
def isSplitPunct (c : Char) : Bool :=
  ['.', ',', '!', '?', ';', ':', '"', '(', ')', '[', ']', '-'].contains c

/-- Fuelled worker for `romTokens`.  Each step consumes at least one
character, so fuel initialised to the character count is always
sufficient; the fuel only keeps the recursion structural, letting concrete
inputs evaluate by reduction. -/
def romTokensF : Nat → List Char → List (List Char)
  | 0, _ => []
  | _ + 1, [] => []
  | fuel + 1, c :: cs =>
    if isWsJs c then
      (c :: cs.takeWhile isWsJs) :: romTokensF fuel (cs.dropWhile isWsJs)
    else if isSplitPunct c then
      [c] :: romTokensF fuel cs
    else
      (c :: cs.takeWhile (fun d => !isWsJs d && !isSplitPunct d)) ::
        romTokensF fuel (cs.dropWhile (fun d => !isWsJs d && !isSplitPunct d))

/-- The token runs produced by splitting on `(\s+|[.,!?;:\"()\[\]\-])`
with captured delimiters and empty parts filtered out
(segmentation.ts line 69): maximal whitespace runs, single punctuation
characters, and maximal runs of remaining characters.  JavaScript `split`
emits empty strings between adjacent separator matches; the source filters
them out immediately, and `romTokens` produces exactly the surviving
parts. -/
def romTokens (cs : List Char) : List (List Char) :=
  romTokensF cs.length cs

/-- `tokenizeRomanized` (segmentation.ts lines 67-77): tag each part with
the regex tests of the source (`/^\s+$/` then the single-punctuation test,
else latin). -/
def tokenizeRomanized (text : String) : List MorphemeData :=
  (romTokens text.data).map (fun cs =>
    let p := String.mk cs
    let pos :=
      if cs ≠ [] && cs.all isWsJs then "whitespace"
      else if (match cs with | [c] => isSplitPunct c | _ => false) then "punct"
      else "latin"
    { surface := p, reading := p, pos := pos })

/-- Fuelled worker for `collapseWs`; the fuel (always sufficient when
initialised to the character count) only keeps the recursion
structural. -/
def collapseWsF : Nat → List Char → List Char
  | 0, _ => []
  | _ + 1, [] => []
  | fuel + 1, c :: cs =>
    if isWsJs c then ' ' :: collapseWsF fuel (cs.dropWhile isWsJs)
    else c :: collapseWsF fuel cs

/-- The whitespace collapse `replace(/\s+/g, ' ')` of `segmentText`
(segmentation.ts line 127): each maximal whitespace run becomes a single
space. -/
def collapseWs (cs : List Char) : List Char :=
  collapseWsF cs.length cs

/-- The error type thrown by the services (`ApiError`, lyrics.ts lines
482-492), restricted to its message and code. -/
structure ApiError where
  message : String
  code : String
deriving DecidableEq, Repr

/-- `segmentText` (segmentation.ts lines 121-173): guard the empty input,
collapse whitespace, try the romanized tokenizer for purely non-Japanese
text (falling through to MeCab when it yields nothing), then run MeCab,
filter empty surfaces, and default each reading to the surface
(`enhanceMorphemesWithReadings`). -/
def cleanTextOf (text : String) : String :=
  String.mk (collapseWs (strTrim text).data)

def segmentText (mecab : MeCabOracle) (text : String) : Except ApiError (List MorphemeData) :=
  if strTrim text = "" then
    .error { message := "Text is required for segmentation", code := "INVALID_INPUT" }
  else if isRomanizedText (cleanTextOf text) &&
      (tokenizeRomanized (cleanTextOf text)).length > 0 then
    .ok (tokenizeRomanized (cleanTextOf text))
  else
    match analyzeWithMeCab mecab (cleanTextOf text) with
    | none =>
      .error { message := "Failed to segment text with available methods",
               code := "SEGMENTATION_FAILED" }
    | some morphemes =>
      if morphemes = [] then
        .error { message := "Failed to segment text with available methods",
                 code := "SEGMENTATION_FAILED" }
      else if morphemes.filter (fun m => strTrim m.surface ≠ "") = [] then
        .error { message := "No valid morphemes found after segmentation",
                 code := "NO_VALID_SEGMENTS" }
      else
        .ok ((morphemes.filter (fun m => strTrim m.surface ≠ "")).map (fun m =>
          { m with reading := if m.reading = "" then m.surface else m.reading }))

/-- The per-line body of `segmentLyrics` for a trimmed non-empty line
(segmentation.ts lines 200-225): use `segmentText`, and on any thrown
error fall back to the romanized tokenizer for non-Japanese lines or to a
character-by-character split otherwise. -/
def segmentLine (mecab : MeCabOracle) (line : String) : List MorphemeData :=
  match segmentText mecab line with
  | .ok segments => segments
  | .error _ =>
    if isRomanizedText line then tokenizeRomanized line
    else line.data.map (fun c =>
      { surface := String.mk [c], pos := "unknown", reading := String.mk [c] })

/-- JavaScript `split('\n')` on the character sequence. -/
def splitNl : List Char → List (List Char)
  | [] => [[]]
  | c :: cs =>
    if c = '\n' then [] :: splitNl cs
    else
      match splitNl cs with
      | t :: ts => (c :: t) :: ts
      | [] => [[c]]

/-- The lines of a lyrics text, as `lyrics.split('\n')` produces them. -/
def splitLines (s : String) : List String :=
  (splitNl s.data).map String.mk

/-- `segmentLyrics` (segmentation.ts lines 175-241): guard the empty input,
split into lines, map blank lines to empty morpheme lists and other lines
through `segmentLine`; the final emptiness guard of the source is kept
although `split` never yields an empty line list. -/
def segmentLyrics (mecab : MeCabOracle) (lyrics : String) :
    Except ApiError (List (List MorphemeData)) :=
  if strTrim lyrics = "" then
    .error { message := "Lyrics are required for segmentation", code := "INVALID_INPUT" }
  else
    let lines := splitLines lyrics
    if lines = [] then
      .error { message := "No valid lines found in lyrics", code := "NO_VALID_LINES" }
    else
      let segmentedLines := lines.map (fun rawLine =>
        let line := strTrim rawLine
        if line = "" then [] else segmentLine mecab line)
      if segmentedLines = [] then
        .error { message := "Failed to segment any lines in the lyrics",
                 code := "COMPLETE_SEGMENTATION_FAILURE" }
      else
        .ok segmentedLines

/-! ## Orchestrator model (processor.ts) -/

/-- The per-morpheme segment construction of `processLyrics`
(processor.ts lines 303-344): translation is the first dictionary
definition when one exists, else the surface form; the dictionary gloss is
the one-element list holding the first definition (or the fallback text
when the first definition is missing or empty), and is absent when the
lookup returned nothing.  The surrounding try/catch is unreachable in this
pure rendering. -/
def mkSegment (morpheme : MorphemeData) (dictionaryData : Option DictionaryResult) : Segment :=
  { text := morpheme.surface
    reading := if morpheme.reading = "" then morpheme.surface else morpheme.reading
    translation :=
      match dictionaryData with
      | some d =>
        match d.definitions with
        | defn :: _ => defn
        | [] => morpheme.surface
      | none => morpheme.surface
    dictionary :=
      match dictionaryData with
      | some d => some [ jsStrOr d.definitions.head? "No definition available" ]
      | none => none }

/-- The per-line segment loop of `processLyrics` (processor.ts lines
301-344): the morpheme at position j is paired with the dictionary result
at position j (an index beyond the results list reads as `undefined`). -/
def buildLineSegments : List MorphemeData → List (Option DictionaryResult) → List Segment
  | [], _ => []
  | m :: ms, [] => mkSegment m none :: buildLineSegments ms []
  | m :: ms, d :: ds => mkSegment m d :: buildLineSegments ms ds

/-- `lookupSegments` (dictionary.ts lines 420-427): batch-resolve the
surface forms. -/
def lookupSegments (net : JishoNet) (now : Nat) (cache : DictionaryCache)
    (segments : List MorphemeData) :
    List (Option DictionaryResult) × DictionaryCache × List (String × Nat) :=
  lookupBatch net now cache (segments.map (fun s => s.surface))

/-- The line loop of `processLyrics` (processor.ts lines 291-354):
batch-resolve each line, build its segments, apply the small-tsu merge,
and thread the dictionary cache; the inter-line pause is a pure delay. -/
def processLines (net : JishoNet) (now : Nat) :
    List (List MorphemeData) → DictionaryCache → List (List Segment) × DictionaryCache
  | [], cache => ([], cache)
  | morphemes :: rest, cache =>
    let batch := lookupSegments net now cache morphemes
    let connected := connectSmallTsuSegments (buildLineSegments morphemes batch.1)
    let r1 := processLines net now rest batch.2.1
    (connected :: r1.1, r1.2)

/-- `processLyrics` (processor.ts lines 269-379): validate, segment, run
the line loop, and wrap any thrown `ApiError` as PROCESSING_FAILED (the
function's own catch block wraps even the SEGMENTATION_FAILED it throws
itself).  Returns the processed lines and the final dictionary cache. -/
def processLyrics (mecab : MeCabOracle) (net : JishoNet) (now : Nat)
    (cache : DictionaryCache) (lyrics : String) :
    Except ApiError (List (List Segment)) × DictionaryCache :=
  if strTrim lyrics = "" then
    (.error { message := "Lyrics are required for processing", code := "INVALID_INPUT" }, cache)
  else
    match segmentLyrics mecab (strTrim lyrics) with
    | .error e =>
      (.error { message := "Failed to process lyrics: " ++ e.message,
                code := "PROCESSING_FAILED" }, cache)
    | .ok segmentedLines =>
      if segmentedLines = [] then
        (.error { message := "Failed to process lyrics: Failed to segment lyrics",
                  code := "PROCESSING_FAILED" }, cache)
      else
        let r1 := processLines net now segmentedLines cache
        (.ok r1.1, r1.2)

/-! ## Hiragana normalization (spec glossary)

The following three definitions come from the spec, not the source: the
glossary defines Hiragana normalization as converting a Katakana reading
to its Hiragana equivalent.  They are used only to state what the claim
asserts about readings; the source contains no such conversion. -/

/-- Standard Katakana letters U+30A1-U+30F6 map to Hiragana by subtracting
0x60; other characters are unchanged. -/
def katakanaToHiragana (c : Char) : Char :=
  if 0x30A1 ≤ c.toNat && c.toNat ≤ 0x30F6 then Char.ofNat (c.toNat - 0x60) else c

/-- Hiragana normalization of a reading, per the spec glossary. -/
def hiraganaNormalize (s : String) : String :=
  String.mk (s.data.map katakanaToHiragana)

/-- True when the string still contains a standard Katakana letter. -/
def containsKatakana (s : String) : Bool :=
  s.data.any (fun c => 0x30A1 ≤ c.toNat && c.toNat ≤ 0x30F6)

/-- A concrete MeCab oracle returning the token for 猫 with the Katakana
reading ネコ, the shape MeCab actually produces for readings. -/
def nekoOracle : MeCabOracle := fun _ =>
  some [ { surface := some "猫", stat := "NORMAL",
           feature := some { pos := some "名詞", reading := some "ネコ" } } ]

/-! ## Lyrics retriever model (lyrics.ts)

Case-insensitive matching (the regex `i` flag and `toLowerCase`) is
modelled with ASCII case folding; the `\s` runs inside bracketed markers
are matched within a line (a marker split across a line break is not
recognised). -/

/-- ASCII lower-casing of a character. -/
def charLowerAscii (c : Char) : Char :=
  if 'A' ≤ c && c ≤ 'Z' then Char.ofNat (c.toNat + 32) else c

/-- ASCII upper-casing of a character. -/
def charUpperAscii (c : Char) : Char :=
  if 'a' ≤ c && c ≤ 'z' then Char.ofNat (c.toNat - 32) else c

/-- ASCII `toLowerCase` of a string. -/
def strLowerAscii (s : String) : String :=
  String.mk (s.data.map charLowerAscii)

/-- Match a lowercase pattern case-insensitively at the head of a
character list, returning the rest on success. -/
def matchPrefixCI : List Char → List Char → Option (List Char)
  | [], cs => some cs
  | _ :: _, [] => none
  | p :: ps, c :: cs => if charLowerAscii c = p then matchPrefixCI ps cs else none

/-- Does the lowercase pattern match case-insensitively at the head? -/
def hasPrefixCI (pat cs : List Char) : Bool :=
  (matchPrefixCI pat cs).isSome

/-- Does the character list contain a case-insensitive occurrence of the
lowercase pattern? -/
def containsCI (pat : List Char) : List Char → Bool
  | [] => pat.isEmpty
  | c :: cs => hasPrefixCI pat (c :: cs) || containsCI pat cs

/-- Case-sensitive substring test (JavaScript `includes`). -/
def containsChars (pat : List Char) : List Char → Bool
  | [] => pat.isEmpty
  | c :: cs => pat.isPrefixOf (c :: cs) || containsChars pat cs

/-- JavaScript `s.includes(pat)`. -/
def containsStr (s pat : String) : Bool :=
  containsChars pat.data s.data

/-- Truncate a line at the first case-insensitive occurrence of the
pattern: the rendering of `Pat.*?(?=\n|$)` replaced by the empty string,
which removes from the match start to the end of the line. -/
def truncAtCI (pat : List Char) : List Char → List Char
  | [] => []
  | c :: cs => if hasPrefixCI pat (c :: cs) then [] else c :: truncAtCI pat cs

/-- The line test of `^\d+\s*Contributors?.*?(?=\n|$)` (cleanLyrics step 1,
lyrics.ts line 137): one or more digits, optional whitespace, then
"contributor" case-insensitively. -/
def isContributorsLine (cs : List Char) : Bool :=
  (cs.takeWhile Char.isDigit) ≠ [] &&
    hasPrefixCI "contributor".data ((cs.dropWhile Char.isDigit).dropWhile isWsJs)

/-- CleanLyrics step 1: a matching contributors line loses its whole
content (the match runs to the end of the line and is replaced by the
empty string). -/
def stripContributorsLine (cs : List Char) : List Char :=
  if isContributorsLine cs then [] else cs

/-- The plain language-name alternatives of cleanLyrics step 3
(lyrics.ts line 143), as lowercase patterns. -/
def simpleLangs : List String :=
  [ "deutsch", "türkçe", "español", "português", "فارسی",
    "français", "polski", "česky" ]

/-- A language alternative of the form `Head\s*\(Tail\)` (the Thai and
Russian entries of step 3). -/
def matchParenLangAt (head tail : String) (cs : List Char) : Bool :=
  match matchPrefixCI head.data cs with
  | some rest => hasPrefixCI tail.data (rest.dropWhile isWsJs)
  | none => false

/-- Does some language alternative of step 3 match at this position? -/
def matchLangAt (cs : List Char) : Bool :=
  simpleLangs.any (fun p => hasPrefixCI p.data cs) ||
  matchParenLangAt "ไทย" "(thai)" cs ||
  matchParenLangAt "русский" "(russian)" cs

/-- CleanLyrics step 3: truncate a line at the first language-name
banner. -/
def truncAtLang : List Char → List Char
  | [] => []
  | c :: cs => if matchLangAt (c :: cs) then [] else c :: truncAtLang cs

/-- CleanLyrics step 7 (`Read\s+More.*?(?=\n|$)`, lyrics.ts line 158):
does "read", mandatory whitespace, "more" match at this position? -/
def matchReadMoreAt (cs : List Char) : Bool :=
  match matchPrefixCI "read".data cs with
  | some r1 =>
    match r1 with
    | d :: _ => isWsJs d && hasPrefixCI "more".data (r1.dropWhile isWsJs)
    | [] => false
  | none => false

/-- CleanLyrics step 7: truncate a line at "Read More". -/
def truncAtReadMore : List Char → List Char
  | [] => []
  | c :: cs => if matchReadMoreAt (c :: cs) then [] else c :: truncAtReadMore cs

/-- The technical-marker keywords of cleanLyrics step 4 (lyrics.ts line
146), in alternation order; "guitar solo" requires at least one whitespace
character between the words. -/
def matchTechKeyword (cs : List Char) : Option (List Char) :=
  match matchPrefixCI "guitar".data cs with
  | some r1 =>
    (match r1 with
     | d :: _ =>
       if isWsJs d then matchPrefixCI "solo".data (r1.dropWhile isWsJs) else none
     | [] => none)
  | none =>
    match matchPrefixCI "piano".data cs with
    | some r => some r
    | none =>
      match matchPrefixCI "instrumental".data cs with
      | some r => some r
      | none =>
        match matchPrefixCI "solo".data cs with
        | some r => some r
        | none => matchPrefixCI "coda".data cs

/-- After an opening bracket, try to match `Keyword\s*\d*\]` and return
the rest after the closing bracket. -/
def matchTechAfterBracket (cs : List Char) : Option (List Char) :=
  match matchTechKeyword cs with
  | some rest =>
    match (rest.dropWhile isWsJs).dropWhile Char.isDigit with
    | ']' :: r2 => some r2
    | _ => none
  | none => none

/-- CleanLyrics step 4 (fuelled; fuel initialised to the character count
is always sufficient): remove `[Guitar Solo]`-style technical markers. -/
def removeTechMarkersF : Nat → List Char → List Char
  | 0, _ => []
  | _ + 1, [] => []
  | fuel + 1, c :: cs =>
    if c = '[' then
      match matchTechAfterBracket cs with
      | some rest => removeTechMarkersF fuel rest
      | none => c :: removeTechMarkersF fuel cs
    else c :: removeTechMarkersF fuel cs

def removeTechMarkers (cs : List Char) : List Char :=
  removeTechMarkersF cs.length cs

/-- The structural-marker keywords of cleanLyrics step 5 (lyrics.ts line
149), in alternation order. -/
def sectionKeywords : List String :=
  [ "verse", "chorus", "refrain", "bridge", "intro", "outro",
    "pre-chorus", "post-chorus", "interlude" ]

/-- After an opening bracket, try to match `Keyword(\s*\d*)\]`; on success
return the matched inner text (as written in the input) and the rest after
the closing bracket. -/
def matchSectionAfterBracket (cs : List Char) : Option (List Char × List Char) :=
  (sectionKeywords.filterMap (fun kw =>
    match matchPrefixCI kw.data cs with
    | some r1 =>
      let ws := r1.takeWhile isWsJs
      let r2 := r1.dropWhile isWsJs
      let ds := r2.takeWhile Char.isDigit
      (match r2.dropWhile Char.isDigit with
       | ']' :: r3 => some (cs.take kw.length ++ ws ++ ds, r3)
       | _ => none)
    | none => none)).head?

/-- The capitalisation of the source's replacement callback: first
character upper-cased, the rest lower-cased. -/
def capFirst : List Char → List Char
  | [] => []
  | c :: rest => charUpperAscii c :: rest.map charLowerAscii

/-- CleanLyrics step 5 (fuelled): rewrite `[Verse 2]`-style markers into
their capitalised text without brackets. -/
def normalizeSectionMarkersF : Nat → List Char → List Char
  | 0, _ => []
  | _ + 1, [] => []
  | fuel + 1, c :: cs =>
    if c = '[' then
      match matchSectionAfterBracket cs with
      | some (inner, rest) => capFirst inner ++ normalizeSectionMarkersF fuel rest
      | none => c :: normalizeSectionMarkersF fuel cs
    else c :: normalizeSectionMarkersF fuel cs

def normalizeSectionMarkers (cs : List Char) : List Char :=
  normalizeSectionMarkersF cs.length cs

/-- CleanLyrics step 6 (`^.*?Lyrics.*?\n`, lyrics.ts line 155): every line
containing "lyrics" case-insensitively is dropped together with its
newline; the final line has no following newline, so the pattern cannot
match it and it is kept. -/
def dropLyricsLines : List (List Char) → List (List Char)
  | [] => []
  | [last] => [last]
  | l :: rest =>
    if containsCI "lyrics".data l then dropLyricsLines rest
    else l :: dropLyricsLines rest

/-- JavaScript trim on a character list. -/
def trimCharsJs (l : List Char) : List Char :=
  ((l.dropWhile isWsJs).reverse.dropWhile isWsJs).reverse

/-- The `[ \t]+` collapse of cleanLyrics step 8 (lyrics.ts line 166):
only spaces and tabs, not all whitespace. -/
def isSpaceTab (c : Char) : Bool :=
  c = ' ' || c = '\t'

def collapseSpaceTabF : Nat → List Char → List Char
  | 0, _ => []
  | _ + 1, [] => []
  | fuel + 1, c :: cs =>
    if isSpaceTab c then ' ' :: collapseSpaceTabF fuel (cs.dropWhile isSpaceTab)
    else c :: collapseSpaceTabF fuel cs

def collapseSpaceTab (cs : List Char) : List Char :=
  collapseSpaceTabF cs.length cs

/-- Join lines with newlines. -/
def intercalateNl : List (List Char) → List Char
  | [] => []
  | [l] => l
  | l :: rest => l ++ '\n' :: intercalateNl rest

/-- The `\n{3,}` collapse of cleanLyrics step 8 (lyrics.ts line 169,
fuelled): a run of three or more newlines becomes exactly two; shorter
runs are kept. -/
def collapseNl3F : Nat → List Char → List Char
  | 0, _ => []
  | _ + 1, [] => []
  | fuel + 1, c :: cs =>
    if c = '\n' then
      let run := 1 + (cs.takeWhile (fun d => d = '\n')).length
      let rest := cs.dropWhile (fun d => d = '\n')
      (if run ≥ 3 then ['\n', '\n'] else List.replicate run '\n') ++ collapseNl3F fuel rest
    else c :: collapseNl3F fuel cs

def collapseNl3 (cs : List Char) : List Char :=
  collapseNl3F cs.length cs

/-- `cleanLyrics` (lyrics.ts lines 131-178).  All regex steps except the
"Lyrics"-header removal operate within single lines (`.` never matches a
newline), so they are applied per line; the header removal drops whole
lines including their newline; the final stage trims each line, collapses
space-tab runs, rejoins, limits newline runs, and trims the result. -/
def cleanLyrics (lyrics : String) : String :=
  let ls := splitNl lyrics.data
  let ls := ls.map stripContributorsLine
  let ls := ls.map (truncAtCI "translation".data)
  let ls := ls.map truncAtLang
  let ls := ls.map removeTechMarkers
  let ls := ls.map normalizeSectionMarkers
  let ls := dropLyricsLines ls
  let ls := ls.map truncAtReadMore
  let ls := ls.map (fun l => collapseSpaceTab (trimCharsJs l))
  String.mk (trimCharsJs (collapseNl3 (intercalateNl ls)))

/-- The `\([^)]*\)` removal of the query normalisation (searchGenius,
lyrics.ts line 188, fuelled): a parenthesised group with a closing
parenthesis is removed; an unclosed `(` is kept. -/
def removeParenGroupsF : Nat → List Char → List Char
  | 0, _ => []
  | _ + 1, [] => []
  | fuel + 1, c :: cs =>
    if c = '(' then
      match cs.dropWhile (fun d => d ≠ ')') with
      | ')' :: r => removeParenGroupsF fuel r
      | _ => c :: removeParenGroupsF fuel cs
    else c :: removeParenGroupsF fuel cs

def removeParenGroups (cs : List Char) : List Char :=
  removeParenGroupsF cs.length cs

/-- The `\[[^\]]*\]` removal of the query normalisation (lyrics.ts line
189, fuelled). -/
def removeBracketGroupsF : Nat → List Char → List Char
  | 0, _ => []
  | _ + 1, [] => []
  | fuel + 1, c :: cs =>
    if c = '[' then
      match cs.dropWhile (fun d => d ≠ ']') with
      | ']' :: r => removeBracketGroupsF fuel r
      | _ => c :: removeBracketGroupsF fuel cs
    else c :: removeBracketGroupsF fuel cs

def removeBracketGroups (cs : List Char) : List Char :=
  removeBracketGroupsF cs.length cs

/-- The query built by `searchGenius` (lyrics.ts lines 183-193): trim the
title, strip parenthesised and bracketed annotations, collapse whitespace,
trim again, and append the trimmed artist when one is given and
non-empty. -/
def buildQuery (title : String) (artist : Option String) : String :=
  let cleanTitle :=
    strTrim (String.mk (collapseWs (removeBracketGroups (removeParenGroups
      ((strTrim title).data)))))
  let cleanArtist :=
    match artist with
    | some a => strTrim a
    | none => ""
  if cleanArtist ≠ "" then cleanTitle ++ " " ++ cleanArtist else cleanTitle

/-- A Genius search result as `searchGenius` consumes it: optional title
and artist name, page url, and the outcome of its `lyrics()` accessor
(`Except.error` models a thrown error carrying the message). -/
structure GeniusSong where
  title : Option String
  artistName : Option String
  url : String
  lyricsOutcome : Except String String
deriving Repr

/-- Oracle for the Genius provider: the search results for a query (`none`
models a thrown search error) and the outcome of the alternative
page-scrape for a url (`fetchLyricsAlternative`, lyrics.ts lines 340-443,
whose page fetch and heuristic HTML extraction read only external data). -/
structure LyricsNet where
  searchResults : String → Option (List GeniusSong)
  altResult : String → Option String

/-- One remote request of the lyrics retriever: a provider search, a
primary structured-accessor lyrics fetch, or the scraping fallback. -/
inductive NetEvent where
  | search (query : String)
  | lyricsFetch (url : String)
  | altFetch (url : String)
deriving DecidableEq, Repr

/-- The romanized/translation filter of `searchGenius` (lyrics.ts lines
262-274). -/
def songFilterOk (song : GeniusSong) : Bool :=
  let songTitle := strLowerAscii (song.title.getD "")
  let songArtist := strLowerAscii (song.artistName.getD "")
  let hasRomanized := containsStr songTitle "romanized" || containsStr songArtist "romanized"
  let hasTranslation :=
    containsStr songTitle "translation" || containsStr songArtist "translation"
  !hasRomanized && !hasTranslation

/-- `searchGenius` (lyrics.ts lines 180-338), with the remote requests it
performs recorded in order: one provider search; on an empty result list
one extra diagnostic search for "faded"; then, when a candidate survives
filtering, a single primary `lyrics()` fetch, and — only when that fetch
throws an error whose message contains "404" or "NoResultError" — the
scraping fallback on the candidate's url.  There is no retry loop. -/
def searchGenius (net : LyricsNet) (title : String) (artist : Option String) :
    Option String × List NetEvent :=
  let query := buildQuery title artist
  match net.searchResults query with
  | none => (none, [NetEvent.search query])
  | some searches =>
    if searches.isEmpty then
      (none, [NetEvent.search query, NetEvent.search "faded"])
    else
      match searches.filter songFilterOk with
      | [] => (none, [NetEvent.search query])
      | firstSong :: _ =>
        match firstSong.lyricsOutcome with
        | .ok lyrics =>
          if lyrics ≠ "" then
            (some lyrics, [NetEvent.search query, NetEvent.lyricsFetch firstSong.url])
          else
            (none, [NetEvent.search query, NetEvent.lyricsFetch firstSong.url])
        | .error msg =>
          if containsStr msg "404" || containsStr msg "NoResultError" then
            (net.altResult firstSong.url,
             [NetEvent.search query, NetEvent.lyricsFetch firstSong.url,
              NetEvent.altFetch firstSong.url])
          else
            (none, [NetEvent.search query, NetEvent.lyricsFetch firstSong.url])

/-- The LYRICS_NOT_FOUND message of `fetchLyrics` (lyrics.ts lines
456-459); the artist clause is included when the artist argument is given
and non-empty. -/
def notFoundMessage (title : String) (artist : Option String) : String :=
  match artist with
  | some a =>
    if a = "" then
      "Lyrics not found for \"" ++ title ++
        "\". Try common songs like \"君の名は\" or \"前前前世\" for testing."
    else
      "Lyrics not found for \"" ++ title ++ "\" by " ++ a ++
        ". Try common songs like \"君の名は\" or \"前前前世\" for testing."
  | none =>
    "Lyrics not found for \"" ++ title ++
      "\". Try common songs like \"君の名は\" or \"前前前世\" for testing."

/-- `fetchLyrics` (lyrics.ts lines 445-473): validate the title, run one
`searchGenius` pass, fail with LYRICS_NOT_FOUND when it produced nothing,
else clean and trim the lyrics.  The service object holds no cache — its
only state is the lazily created provider client — so every call performs
its own search; the returned event list records this call's remote
requests. -/
def fetchLyrics (net : LyricsNet) (title : String) (artist : Option String) :
    Except ApiError String × List NetEvent :=
  if strTrim title = "" then
    (.error { message := "Song title is required", code := "INVALID_INPUT" }, [])
  else
    match searchGenius net title artist with
    | (none, events) =>
      (.error { message := notFoundMessage title artist, code := "LYRICS_NOT_FOUND" },
       events)
    | (some lyrics, events) =>
      (.ok (strTrim (cleanLyrics lyrics)), events)

/-- The number of provider searches in an event trace. -/
def countSearches (events : List NetEvent) : Nat :=
  (events.filter (fun e => match e with | .search _ => true | _ => false)).length

/-- The number of primary structured-accessor lyrics fetches in a trace. -/
def countLyricsFetches (events : List NetEvent) : Nat :=
  (events.filter (fun e => match e with | .lyricsFetch _ => true | _ => false)).length

/-- The number of scraping-fallback fetches in a trace. -/
def countAltFetches (events : List NetEvent) : Nat :=
  (events.filter (fun e => match e with | .altFetch _ => true | _ => false)).length

/-- A concrete provider whose search finds one song with working
lyrics. -/
def okNet : LyricsNet :=
  { searchResults := fun _ =>
      some [ { title := some "Cat Song", artistName := some "Neko",
               url := "https://example.com/cat", lyricsOutcome := .ok "猫の歌" } ]
    altResult := fun _ => none }

/-- A concrete provider whose one song's primary lyrics fetch throws a 404
error, and whose scraping fallback succeeds. -/
def net404 : LyricsNet :=
  { searchResults := fun _ =>
      some [ { title := some "Cat Song", artistName := some "Neko",
               url := "https://example.com/cat",
               lyricsOutcome := .error "Request failed with status code 404" } ]
    altResult := fun _ => some "scraped lyrics" }

end Kashibotto

namespace Kashibotto

theorem connect_cons_pos (a b : Segment) (rest : List Segment)
    (h : (strEndsWith a.text "っ" && shouldConnect b) = true) :
    connectSmallTsuSegments (a :: b :: rest) =
      connectedSegment a b :: connectSmallTsuSegments rest := by
  simp [connectSmallTsuSegments, h]

theorem connect_cons_neg (a b : Segment) (rest : List Segment)
    (h : (strEndsWith a.text "っ" && shouldConnect b) = false) :
    connectSmallTsuSegments (a :: b :: rest) =
      a :: connectSmallTsuSegments (b :: rest) := by
  simp [connectSmallTsuSegments, h]

/-- C8: the small-tsu merge never lengthens the list; every output segment
is either an input segment unchanged or the merge of an adjacent input pair
whose first member ends in っ and whose second starts with an allow-listed
continuation; and a merged pair is consumed whole, so it is never
re-examined in the same pass. -/
theorem connectSmallTsuSegments_merge_discipline (segs : List Segment) :
    (connectSmallTsuSegments segs).length ≤ segs.length ∧
    (∀ s ∈ connectSmallTsuSegments segs, s ∈ segs ∨
      ∃ a b pre post, segs = pre ++ a :: b :: post ∧
        (strEndsWith a.text "っ" && shouldConnect b) = true ∧
        s = connectedSegment a b) ∧
    (∀ a b rest, (strEndsWith a.text "っ" && shouldConnect b) = true →
      connectSmallTsuSegments (a :: b :: rest) =
        connectedSegment a b :: connectSmallTsuSegments rest) := by
  refine ⟨?_, ?_, ?_⟩
  · induction segs using connectSmallTsuSegments.induct with
    | case1 => simp [connectSmallTsuSegments]
    | case2 s => simp [connectSmallTsuSegments]
    | case3 a b rest h ih =>
      rw [connect_cons_pos a b rest h]
      simp only [List.length_cons]
      omega
    | case4 a b rest h ih =>
      rw [connect_cons_neg a b rest (by simpa using h)]
      simp only [List.length_cons] at ih ⊢
      omega
  · induction segs using connectSmallTsuSegments.induct with
    | case1 => simp [connectSmallTsuSegments]
    | case2 s => simp [connectSmallTsuSegments]
    | case3 a b rest h ih =>
      rw [connect_cons_pos a b rest h]
      intro s hs
      rcases List.mem_cons.mp hs with rfl | hs
      · exact Or.inr ⟨a, b, [], rest, rfl, h, rfl⟩
      · rcases ih s hs with hmem | ⟨a', b', pre, post, hdec, hcond, hval⟩
        · exact Or.inl (by simp [hmem])
        · exact Or.inr ⟨a', b', a :: b :: pre, post, by simp [hdec], hcond, hval⟩
    | case4 a b rest h ih =>
      rw [connect_cons_neg a b rest (by simpa using h)]
      intro s hs
      rcases List.mem_cons.mp hs with rfl | hs
      · exact Or.inl (List.mem_cons_self _ _)
      · rcases ih s hs with hmem | ⟨a', b', pre, post, hdec, hcond, hval⟩
        · exact Or.inl (List.mem_cons_of_mem _ hmem)
        · exact Or.inr ⟨a', b', a :: pre, post, by simp [hdec], hcond, hval⟩
  · intro a b rest h
    exact connect_cons_pos a b rest h

/-- Witness for C8: ["引っ", "て"] merges into a single segment, while
["っ", "犬"] (non-matching continuation) is returned unmerged. -/
theorem connectSmallTsuSegments_merge_discipline_witness :
    connectSmallTsuSegments [hikSeg, teSeg] =
      [connectedSegment hikSeg teSeg] ∧
    connectSmallTsuSegments [tsuSeg, inuSeg] = [tsuSeg, inuSeg] := by
  constructor
  · have h := (connectSmallTsuSegments_merge_discipline [hikSeg, teSeg]).2.2
      hikSeg teSeg [] (by decide)
    simpa [connectSmallTsuSegments] using h
  · decide

/-- C10: the small-tsu merge preserves the concatenation of the text fields
and the concatenation of the reading fields: no lyric text or reading is
lost, duplicated, or reordered. -/
theorem connectSmallTsuSegments_preserves_concats (segs : List Segment) :
    textConcat (connectSmallTsuSegments segs) = textConcat segs ∧
    readingConcat (connectSmallTsuSegments segs) = readingConcat segs := by
  induction segs using connectSmallTsuSegments.induct with
  | case1 => exact ⟨rfl, rfl⟩
  | case2 s => exact ⟨rfl, rfl⟩
  | case3 a b rest h ih =>
    rw [connect_cons_pos a b rest h]
    refine ⟨?_, ?_⟩
    · simp only [textConcat, List.foldr_cons, connectedSegment] at ih ⊢
      rw [ih.1, String.append_assoc]
    · simp only [readingConcat, List.foldr_cons, connectedSegment] at ih ⊢
      rw [ih.2, String.append_assoc]
  | case4 a b rest h ih =>
    rw [connect_cons_neg a b rest (by simpa using h)]
    refine ⟨?_, ?_⟩
    · simp only [textConcat, List.foldr_cons] at ih ⊢
      rw [ih.1]
    · simp only [readingConcat, List.foldr_cons] at ih ⊢
      rw [ih.2]

/-- C1 counterexample: merging ["引っ", "て"] concatenates the translations
("pull te") and both dictionary gloss lists, rather than keeping the first
segment's translation and gloss unchanged and discarding the second gloss
as the claim states. -/
theorem connectSmallTsuSegments_gloss_cex :
    connectSmallTsuSegments [hikSeg, teSeg] =
      [{ text := "引って", reading := "ひって",
         translation := "pull te",
         dictionary := some ["to pull", "te-form"] }] ∧
    ¬ ("pull te" = hikSeg.translation) ∧
    ¬ (some ["to pull", "te-form"] = hikSeg.dictionary) := by
  refine ⟨by decide, by decide, by decide⟩

/-- C1 amended: when the merge connects an adjacent pair, the merged
segment's text and reading are the concatenations of the pair's texts and
readings, its translation is the two translations joined with a single
space, and its dictionary gloss is the concatenation of both segments'
gloss lists (an absent gloss contributing the empty list). -/
theorem connectSmallTsuSegments_merged_fields (a b : Segment) (rest : List Segment)
    (h1 : strEndsWith a.text "っ" = true) (h2 : shouldConnect b = true) :
    connectSmallTsuSegments (a :: b :: rest) =
      { text := a.text ++ b.text
        reading := a.reading ++ b.reading
        translation := a.translation ++ " " ++ b.translation
        dictionary := some (a.dictionary.getD [] ++ b.dictionary.getD []) }
        :: connectSmallTsuSegments rest := by
  simpa [connectedSegment] using connect_cons_pos a b rest (by simp [h1, h2])

/-- Witness for the amended C1 at the concrete pair ["引っ", "て"]. -/
theorem connectSmallTsuSegments_merged_fields_witness :
    connectSmallTsuSegments [hikSeg, teSeg] =
      [{ text := "引っ" ++ "て"
         reading := "ひっ" ++ "て"
         translation := "pull" ++ " " ++ "te"
         dictionary := some (["to pull"] ++ ["te-form"]) }] :=
  connectSmallTsuSegments_merged_fields hikSeg teSeg [] (by decide) (by decide)

/-! ## Dictionary-cache lemmas and claims C2, C7 -/

theorem find?_map_replace (entries : List (String × CacheEntry)) (word : String)
    (e : CacheEntry) (h : entries.any (fun p => p.1 == word) = true) :
    ((entries.map (fun p => if p.1 == word then (word, e) else p)).find?
      (fun p => p.1 == word)) = some (word, e) := by
  induction entries with
  | nil => simp at h
  | cons p rest ih =>
    simp only [List.map_cons]
    by_cases hp : (p.1 == word) = true
    · rw [if_pos hp]
      simp [List.find?_cons]
    · have hp' : (p.1 == word) = false := by simpa using hp
      rw [if_neg hp]
      simp only [List.find?_cons, hp']
      apply ih
      simp only [List.any_cons, hp', Bool.false_or] at h
      exact h

theorem find?_append_last (l : List (String × CacheEntry)) (word : String)
    (e : CacheEntry) (hall : ∀ p ∈ l, (p.1 == word) = false) :
    ((l ++ [(word, e)]).find? (fun p => p.1 == word)) = some (word, e) := by
  induction l with
  | nil => simp [List.find?_cons]
  | cons q rest ih =>
    rw [List.cons_append]
    simp only [List.find?_cons, hall q (by simp)]
    exact ih (fun p hp => hall p (by simp [hp]))

theorem find?_setEntry_self (entries : List (String × CacheEntry)) (word : String)
    (e : CacheEntry) :
    ((setEntry entries word e).find? (fun p => p.1 == word)) = some (word, e) := by
  unfold setEntry
  by_cases h : entries.any (fun p => p.1 == word) = true
  · rw [if_pos h]
    exact find?_map_replace entries word e h
  · rw [if_neg h]
    have h' : entries.any (fun p => p.1 == word) = false := Bool.eq_false_iff.mpr h
    refine find?_append_last entries word e (fun p hp => ?_)
    have hfalse := List.any_eq_false.mp h' p hp
    simpa using hfalse

theorem getFromCache_addToCache_self (cache : DictionaryCache) (word : String)
    (result : DictionaryResult) (now : Nat) :
    getFromCache (addToCache cache word result now) word = some result := by
  simp [getFromCache, addToCache, lookupEntry, find?_setEntry_self]

/-- C2 counterexample: the dictionary-cache read ignores time.  With an
entry written at timestamp 0, a read at time 10^12 ms — far beyond the
24-hour time-to-live that the spec assigns to cache entries — still
returns the entry instead of treating it as absent. -/
theorem getFromCache_ttl_cex :
    getFromCacheAt catCache "猫" 1000000000000 =
      some { word := "猫", definitions := [ "cat" ], partOfSpeech := [ "noun" ],
             readings := [ "ねこ" ] } ∧
    0 + 86400000 ≤ 1000000000000 := by
  exact ⟨by decide, by decide⟩

/-- C2 amended: the dictionary cache has no expiry.  A read returns the
stored entry for a word at every wall-clock time: the entry's timestamp is
recorded on write but never consulted on read, and no entry is ever
evicted by the passage of time. -/
theorem getFromCache_ignores_expiry (cache : DictionaryCache) (word : String)
    (e : CacheEntry) (h : lookupEntry cache word = some e) (now : Nat) :
    getFromCacheAt cache word now =
      some { word := e.word, definitions := e.definitions,
             partOfSpeech := e.partOfSpeech, readings := e.readings } := by
  simp [getFromCacheAt, getFromCache, h]

/-- Witness for the amended C2: the concrete entry of `catCache` is still
returned by a read at time 10^12 + 1. -/
theorem getFromCache_ignores_expiry_witness :
    getFromCacheAt catCache "猫" 1000000000001 =
      some { word := "猫", definitions := [ "cat" ], partOfSpeech := [ "noun" ],
             readings := [ "ねこ" ] } :=
  getFromCache_ignores_expiry catCache "猫"
    { word := "猫", definitions := [ "cat" ], partOfSpeech := [ "noun" ],
      readings := [ "ねこ" ], timestamp := 0 }
    (by decide) 1000000000001

theorem isJapaneseWord_ne_empty {s : String} (h : isJapaneseWord s = true) : s ≠ "" := by
  intro hs
  rw [hs] at h
  simp [isJapaneseWord] at h

theorem lookupWord_unfold_hit (net : JishoNet) (now : Nat) (cache : DictionaryCache)
    (word : String) (r : DictionaryResult)
    (hjp : isJapaneseWord (strTrim word) = true)
    (hhit : getFromCache cache (strTrim word) = some r) :
    lookupWord net now cache word = ⟨some r, cache, []⟩ := by
  have hne : strTrim word ≠ "" := isJapaneseWord_ne_empty hjp
  unfold lookupWord
  rw [if_neg hne, if_neg (by simp [hjp]), if_neg (by simp [hjp]), hhit]

theorem lookupWord_unfold_miss (net : JishoNet) (now : Nat) (cache : DictionaryCache)
    (word : String)
    (hjp : isJapaneseWord (strTrim word) = true)
    (hmiss : getFromCache cache (strTrim word) = none) :
    lookupWord net now cache word =
      (match jishoAttempts (net (strTrim word)) (strTrim word) 1 maxRetries with
       | (some result, attempts) =>
         ⟨some result, addToCache cache (strTrim word) result now,
          attempts.map (fun a => (strTrim word, a))⟩
       | (none, attempts) =>
         ⟨some (fallbackResult (strTrim word)),
          addToCache cache (strTrim word) (fallbackResult (strTrim word)) now,
          attempts.map (fun a => (strTrim word, a))⟩ : LookupOutcome) := by
  have hne : strTrim word ≠ "" := isJapaneseWord_ne_empty hjp
  unfold lookupWord
  rw [if_neg hne, if_neg (by simp [hjp]), if_neg (by simp [hjp]), hmiss]

/-- C7: a Japanese word whose remote lookup finds nothing (or whose retry
budget is exhausted) is written to the cache as the explicit fallback
entry with definitions ["No definition available"]; a second call for the
same word is then answered from the cache with no remote request, under
any oracle. -/
theorem lookupWord_fallback_caching (net net2 : JishoNet) (now now2 : Nat)
    (cache : DictionaryCache) (word : String)
    (hjp : isJapaneseWord (strTrim word) = true)
    (hmiss : getFromCache cache (strTrim word) = none)
    (hfail : (jishoAttempts (net (strTrim word)) (strTrim word) 1 maxRetries).1 = none) :
    (lookupWord net now cache word).result = some (fallbackResult (strTrim word)) ∧
    getFromCache (lookupWord net now cache word).cache (strTrim word) =
      some (fallbackResult (strTrim word)) ∧
    (lookupWord net2 now2 (lookupWord net now cache word).cache word).result =
      some (fallbackResult (strTrim word)) ∧
    (lookupWord net2 now2 (lookupWord net now cache word).cache word).requests = [] := by
  obtain ⟨r, tr, hpair⟩ :
      ∃ r tr, jishoAttempts (net (strTrim word)) (strTrim word) 1 maxRetries = (r, tr) :=
    ⟨_, _, rfl⟩
  have hr : r = none := by
    have h := hfail
    rw [hpair] at h
    exact h
  subst hr
  have hfirst : lookupWord net now cache word =
      ⟨some (fallbackResult (strTrim word)),
       addToCache cache (strTrim word) (fallbackResult (strTrim word)) now,
       tr.map (fun a => (strTrim word, a))⟩ := by
    rw [lookupWord_unfold_miss net now cache word hjp hmiss, hpair]
  have hcached : getFromCache
      (addToCache cache (strTrim word) (fallbackResult (strTrim word)) now)
      (strTrim word) = some (fallbackResult (strTrim word)) :=
    getFromCache_addToCache_self cache (strTrim word) (fallbackResult (strTrim word)) now
  have hsecond : lookupWord net2 now2 (lookupWord net now cache word).cache word =
      ⟨some (fallbackResult (strTrim word)), (lookupWord net now cache word).cache, []⟩ := by
    apply lookupWord_unfold_hit net2 now2 _ word (fallbackResult (strTrim word)) hjp
    rw [hfirst]
    exact hcached
  refine ⟨by rw [hfirst], by rw [hfirst]; exact hcached, by rw [hsecond], by rw [hsecond]⟩

/-- Witness for C7: the word 猫 against an oracle whose every request
throws, starting from the empty cache. -/
theorem lookupWord_fallback_caching_witness :
    (lookupWord (fun _ _ => .fail none) 5 { entries := [], lastUpdated := 0 } "猫").result =
      some (fallbackResult (strTrim "猫")) ∧
    getFromCache
      (lookupWord (fun _ _ => .fail none) 5 { entries := [], lastUpdated := 0 } "猫").cache
      (strTrim "猫") = some (fallbackResult (strTrim "猫")) ∧
    (lookupWord (fun _ _ => .ok []) 6
      (lookupWord (fun _ _ => .fail none) 5 { entries := [], lastUpdated := 0 } "猫").cache
      "猫").result = some (fallbackResult (strTrim "猫")) ∧
    (lookupWord (fun _ _ => .ok []) 6
      (lookupWord (fun _ _ => .fail none) 5 { entries := [], lastUpdated := 0 } "猫").cache
      "猫").requests = [] :=
  lookupWord_fallback_caching (fun _ _ => .fail none) (fun _ _ => .ok []) 5 6
    { entries := [], lastUpdated := 0 } "猫" (by decide) (by decide) (by decide)

/-! ## Batch lookup lemmas and claim C6 -/

theorem getFromCache_word (cache : DictionaryCache) (w : String) (r : DictionaryResult)
    (hwf : WFCache cache) (h : getFromCache cache w = some r) : r.word = w := by
  unfold getFromCache lookupEntry at h
  cases hfind : cache.entries.find? (fun p => p.1 == w) with
  | none => rw [hfind] at h; simp at h
  | some p =>
    rw [hfind] at h
    have hx : some ({ word := p.2.word, definitions := p.2.definitions,
                      partOfSpeech := p.2.partOfSpeech,
                      readings := p.2.readings } : DictionaryResult) = some r := h
    have hmem : p ∈ cache.entries := List.mem_of_find?_eq_some hfind
    have hpred := List.find?_some hfind
    have hx' := Option.some.inj hx
    rw [← hx']
    show p.2.word = w
    rw [hwf p hmem]
    exact beq_iff_eq.mp hpred

theorem jishoAttempts_word (net : Nat → JishoResponse) (cw : String) (a rem : Nat)
    (r : DictionaryResult) (h : (jishoAttempts net cw a rem).1 = some r) : r.word = cw := by
  induction rem generalizing a with
  | zero => simp [jishoAttempts] at h
  | succ rem ih =>
    unfold jishoAttempts at h
    split at h
    · split at h
      · split at h
        · have h' := Option.some.inj h
          rw [← h']
        · simp at h
      · simp at h
    · split at h
      · exact ih (a + 1) h
      · simp at h

theorem WFCache_addToCache (cache : DictionaryCache) (w : String) (res : DictionaryResult)
    (now : Nat) (hwf : WFCache cache) (hword : res.word = w) :
    WFCache (addToCache cache w res now) := by
  intro p hp
  simp only [addToCache] at hp
  unfold setEntry at hp
  by_cases h : cache.entries.any (fun q => q.1 == w) = true
  · rw [if_pos h] at hp
    obtain ⟨q, hq, hpq⟩ := List.mem_map.mp hp
    by_cases hq1 : (q.1 == w) = true
    · rw [if_pos hq1] at hpq
      rw [← hpq]
      exact hword
    · rw [if_neg hq1] at hpq
      rw [← hpq]
      exact hwf q hq
  · rw [if_neg h] at hp
    rcases List.mem_append.mp hp with hq | hq
    · exact hwf p hq
    · have hpw : p = (w, { word := res.word, definitions := res.definitions,
                           partOfSpeech := res.partOfSpeech, readings := res.readings,
                           timestamp := now }) := by
        simpa using hq
      rw [hpw]
      exact hword

theorem WFCache_lookupWord (net : JishoNet) (now : Nat) (cache : DictionaryCache)
    (w : String) (hwf : WFCache cache) : WFCache (lookupWord net now cache w).cache := by
  unfold lookupWord
  by_cases h1 : strTrim w = ""
  · rw [if_pos h1]; exact hwf
  rw [if_neg h1]
  by_cases h2 : ((strTrim w).length == 1 && !isJapaneseWord (strTrim w)) = true
  · rw [if_pos h2]; exact hwf
  rw [if_neg h2]
  by_cases h3 : (!isJapaneseWord (strTrim w)) = true
  · rw [if_pos h3]; exact hwf
  rw [if_neg h3]
  cases hc : getFromCache cache (strTrim w) with
  | some r => simp only [hc]; exact hwf
  | none =>
    simp only [hc]
    cases hj : jishoAttempts (net (strTrim w)) (strTrim w) 1 maxRetries with
    | mk ores tr =>
      cases ores with
      | some res =>
        simp only []
        exact WFCache_addToCache cache _ res now hwf
          (jishoAttempts_word (net (strTrim w)) (strTrim w) 1 maxRetries res (by rw [hj]))
      | none =>
        simp only []
        exact WFCache_addToCache cache _ _ now hwf rfl

theorem lookupWord_result_word (net : JishoNet) (now : Nat) (cache : DictionaryCache)
    (w : String) (r : DictionaryResult) (hwf : WFCache cache)
    (h : (lookupWord net now cache w).result = some r) : r.word = strTrim w := by
  unfold lookupWord at h
  by_cases h1 : strTrim w = ""
  · rw [if_pos h1] at h; simp at h
  rw [if_neg h1] at h
  by_cases h2 : ((strTrim w).length == 1 && !isJapaneseWord (strTrim w)) = true
  · rw [if_pos h2] at h; simp at h
  rw [if_neg h2] at h
  by_cases h3 : (!isJapaneseWord (strTrim w)) = true
  · rw [if_pos h3] at h; simp at h
  rw [if_neg h3] at h
  cases hc : getFromCache cache (strTrim w) with
  | some cachedResult =>
    rw [hc] at h
    simp only [Option.some.injEq] at h
    rw [← h]
    exact getFromCache_word cache (strTrim w) cachedResult hwf hc
  | none =>
    rw [hc] at h
    cases hj : jishoAttempts (net (strTrim w)) (strTrim w) 1 maxRetries with
    | mk ores tr =>
      rw [hj] at h
      cases ores with
      | some res =>
        simp only [Option.some.injEq] at h
        rw [← h]
        exact jishoAttempts_word (net (strTrim w)) (strTrim w) 1 maxRetries res (by rw [hj])
      | none =>
        simp only [Option.some.injEq] at h
        rw [← h]
        rfl

theorem batchClassify_fst_length (cache : DictionaryCache) (words : List String) (i : Nat) :
    (batchClassify cache words i).1.length = words.length := by
  induction words generalizing i with
  | nil => rfl
  | cons w ws ih =>
    cases hjw : isJapaneseWord w <;> cases hc : getFromCache cache w <;>
      simp [batchClassify, hjw, hc, ih]

theorem batchClassify_queue (cache : DictionaryCache) (words : List String) (i : Nat) :
    ∀ q ∈ (batchClassify cache words i).2, ∃ (k : Nat), q.1 = i + k ∧ words[k]? = some q.2 := by
  induction words generalizing i with
  | nil => simp [batchClassify]
  | cons w ws ih =>
    intro q hq
    have step : ∀ m ∈ (batchClassify cache ws (i + 1)).2, ∃ k, m.1 = i + k ∧ (w :: ws)[k]? = some m.2 := by
      intro m hm
      obtain ⟨k, hk1, hk2⟩ := ih (i + 1) m hm
      exact ⟨k + 1, by omega, by simpa using hk2⟩
    cases hjw : isJapaneseWord w with
    | false =>
      simp only [batchClassify, hjw, Bool.not_false, if_pos] at hq
      exact step q hq
    | true =>
      cases hc : getFromCache cache w with
      | some cachedResult =>
        simp only [batchClassify, hjw, Bool.not_true, Bool.false_eq_true, if_false, hc] at hq
        exact step q hq
      | none =>
        simp only [batchClassify, hjw, Bool.not_true, Bool.false_eq_true, if_false, hc,
          List.mem_cons] at hq
        rcases hq with rfl | hq
        · exact ⟨0, by omega, by simp⟩
        · exact step q hq

theorem batchClassify_results (cache : DictionaryCache) (words : List String) (i : Nat) :
    ∀ (k : Nat) (r : DictionaryResult), (batchClassify cache words i).1[k]? = some (some r) →
      ∃ w, words[k]? = some w ∧ getFromCache cache w = some r := by
  induction words generalizing i with
  | nil => intro k r h; simp [batchClassify] at h
  | cons w ws ih =>
    intro k r h
    cases hjw : isJapaneseWord w with
    | false =>
      simp only [batchClassify, hjw, Bool.not_false, if_pos] at h
      cases k with
      | zero => simp at h
      | succ k' =>
        obtain ⟨w', hw', hc⟩ := ih (i + 1) k' r (by simpa using h)
        exact ⟨w', by simpa using hw', hc⟩
    | true =>
      cases hc : getFromCache cache w with
      | some cachedResult =>
        simp only [batchClassify, hjw, Bool.not_true, Bool.false_eq_true, if_false, hc] at h
        cases k with
        | zero =>
          simp only [List.getElem?_cons_zero, Option.some.injEq] at h
          exact ⟨w, by simp, by rw [hc, h]⟩
        | succ k' =>
          obtain ⟨w', hw', hcw⟩ := ih (i + 1) k' r (by simpa using h)
          exact ⟨w', by simpa using hw', hcw⟩
      | none =>
        simp only [batchClassify, hjw, Bool.not_true, Bool.false_eq_true, if_false, hc] at h
        cases k with
        | zero => simp at h
        | succ k' =>
          obtain ⟨w', hw', hcw⟩ := ih (i + 1) k' r (by simpa using h)
          exact ⟨w', by simpa using hw', hcw⟩

theorem batchResolve_fst_length (net : JishoNet) (now : Nat) (queue : List (Nat × String)) :
    ∀ (cache : DictionaryCache) (results : List (Option DictionaryResult)),
      (batchResolve net now queue cache results).1.length = results.length := by
  induction queue with
  | nil => intro cache results; rfl
  | cons q rest ih =>
    intro cache results
    cases q with
    | mk i w =>
      simp only [batchResolve]
      rw [ih]
      exact List.length_set results i _

theorem batchResolve_order (net : JishoNet) (now : Nat) (words : List String)
    (queue : List (Nat × String)) :
    ∀ (cache : DictionaryCache) (results : List (Option DictionaryResult)),
    WFCache cache →
    (∀ q ∈ queue, words[q.1]? = some q.2) →
    (∀ (k : Nat) (w : String) (r : DictionaryResult), words[k]? = some w →
      results[k]? = some (some r) → r.word = w ∨ r.word = strTrim w) →
    ∀ (k : Nat) (w : String) (r : DictionaryResult), words[k]? = some w →
      (batchResolve net now queue cache results).1[k]? = some (some r) →
      r.word = w ∨ r.word = strTrim w := by
  induction queue with
  | nil =>
    intro cache results _ _ hres k w r hw h
    exact hres k w r hw (by simpa [batchResolve] using h)
  | cons q rest ih =>
    intro cache results hwf hq hres k w r hw h
    cases q with
    | mk i wq =>
      simp only [batchResolve] at h
      refine ih (lookupWord net now cache wq).cache
        (results.set i (lookupWord net now cache wq).result)
        (WFCache_lookupWord net now cache wq hwf)
        (fun m hm => hq m (by simp [hm])) ?_ k w r hw h
      intro k' w' r' hw' hres'
      by_cases hk : i = k'
      · subst hk
        by_cases hlen : i < results.length
        · rw [List.getElem?_set_self hlen] at hres'
          have hr' : (lookupWord net now cache wq).result = some r' :=
            Option.some.inj hres'
          have hwq : words[i]? = some wq := hq (i, wq) (by simp)
          have hww : w' = wq := by
            rw [hwq] at hw'
            exact (Option.some.inj hw').symm
          right
          rw [hww]
          exact lookupWord_result_word net now cache wq r' hwf hr'
        · rw [List.set_eq_of_length_le (Nat.le_of_not_lt hlen)] at hres'
          exact hres i w' r' hw' hres'
      · rw [List.getElem?_set_ne hk] at hres'
        exact hres k' w' r' hw' hres'

/-- C6: `lookupBatch` returns one result per input word, in input order:
the output has the same length as the input, and an entry returned at an
index carries the word at that index (as given or trimmed), whether it was
resolved by the non-Japanese skip, the cache hit, or the remote batch
path. -/
theorem lookupBatch_length_and_order (net : JishoNet) (now : Nat) (cache : DictionaryCache)
    (words : List String) (hwf : WFCache cache) :
    (lookupBatch net now cache words).1.length = words.length ∧
    ∀ (k : Nat) (w : String) (r : DictionaryResult), words[k]? = some w →
      (lookupBatch net now cache words).1[k]? = some (some r) →
      r.word = w ∨ r.word = strTrim w := by
  by_cases hempty : words = []
  · subst hempty
    refine ⟨by simp [lookupBatch], ?_⟩
    intro k w r hw _
    simp at hw
  · constructor
    · unfold lookupBatch
      rw [if_neg hempty, batchResolve_fst_length, batchClassify_fst_length]
    · intro k w r hw h
      unfold lookupBatch at h
      rw [if_neg hempty] at h
      refine batchResolve_order net now words (batchClassify cache words 0).2 cache
        (batchClassify cache words 0).1 hwf ?_ ?_ k w r hw h
      · intro q hq
        obtain ⟨m, hm1, hm2⟩ := batchClassify_queue cache words 0 q hq
        rw [hm1, Nat.zero_add]
        exact hm2
      · intro k' w' r' hw' hres'
        obtain ⟨w'', hw'', hc⟩ := batchClassify_results cache words 0 k' r' hres'
        have heq : w'' = w' := by
          rw [hw''] at hw'
          exact Option.some.injEq _ _ ▸ hw'
        left
        exact getFromCache_word cache w' r' hwf (heq ▸ hc)

/-- Witness for C6 on a concrete mixed list (one Latin word, one Japanese
word) against an always-failing oracle and the empty cache. -/
theorem lookupBatch_length_and_order_witness :
    (lookupBatch (fun _ _ => JishoResponse.fail none) 0 { entries := [], lastUpdated := 0 }
      [ "hello", "猫" ]).1.length = 2 :=
  (lookupBatch_length_and_order (fun _ _ => JishoResponse.fail none) 0
    { entries := [], lastUpdated := 0 } [ "hello", "猫" ]
    (fun p hp => absurd hp (List.not_mem_nil p))).1

/-! ## Segmentation lemmas and claims C9, C4 -/

theorem string_of_data_nil (s : String) (h : s.data = []) : s = "" := by
  cases s with
  | mk l =>
    simp only [String.data] at h
    rw [h]

theorem romTokens_cons_ne_nil (c : Char) (cs : List Char) : romTokens (c :: cs) ≠ [] := by
  show romTokensF (c :: cs).length (c :: cs) ≠ []
  rw [List.length_cons]
  unfold romTokensF
  split
  · simp
  · split <;> simp

theorem tokenizeRomanized_ne_nil (s : String) (h : s ≠ "") : tokenizeRomanized s ≠ [] := by
  unfold tokenizeRomanized
  cases hd : s.data with
  | nil => exact absurd (string_of_data_nil s hd) h
  | cons c cs =>
    intro hcontra
    exact romTokens_cons_ne_nil c cs (List.map_eq_nil_iff.mp hcontra)

theorem segmentText_ok_ne_nil (mecab : MeCabOracle) (text : String)
    (ms : List MorphemeData) (h : segmentText mecab text = .ok ms) : ms ≠ [] := by
  unfold segmentText at h
  split at h
  · cases h
  · split at h
    · rename_i hguard
      cases h
      intro hnil
      rw [hnil] at hguard
      simp at hguard
    · split at h
      · cases h
      · split at h
        · cases h
        · split at h
          · cases h
          · rename_i hvalid
            cases h
            intro hnil
            exact hvalid (List.map_eq_nil_iff.mp hnil)

theorem segmentLine_ne_nil (mecab : MeCabOracle) (line : String) (h : line ≠ "") :
    segmentLine mecab line ≠ [] := by
  unfold segmentLine
  cases hst : segmentText mecab line with
  | ok segments => exact segmentText_ok_ne_nil mecab line segments hst
  | error e =>
    have hdata : line.data ≠ [] := fun hd => h (string_of_data_nil line hd)
    by_cases hr : isRomanizedText line = true
    · rw [if_pos hr]
      exact tokenizeRomanized_ne_nil line h
    · rw [if_neg hr]
      intro hcontra
      exact hdata (List.map_eq_nil_iff.mp hcontra)

theorem splitNl_ne_nil (cs : List Char) : splitNl cs ≠ [] := by
  cases cs with
  | nil => simp [splitNl]
  | cons c cs =>
    unfold splitNl
    split
    · simp
    · split <;> simp

/-- C9: for every analyzer behaviour and every lyrics text that is
non-empty after trimming, `segmentLyrics` succeeds with one morpheme list
per input line; a line that is blank after trimming yields the empty list
at its position, and every other line yields at least one morpheme (the
degraded per-line fallbacks never raise and never return zero
morphemes). -/
theorem segmentLyrics_line_safety (mecab : MeCabOracle) (lyrics : String)
    (h : strTrim lyrics ≠ "") :
    ∃ res, segmentLyrics mecab lyrics = .ok res ∧
      res.length = (splitLines lyrics).length ∧
      ∀ (i : Nat) (line : String), (splitLines lyrics)[i]? = some line →
        ((strTrim line = "" → res[i]? = some []) ∧
         (strTrim line ≠ "" → ∃ ms, res[i]? = some ms ∧ ms ≠ [])) := by
  have hlines : splitLines lyrics ≠ [] := by
    unfold splitLines
    intro hcontra
    exact splitNl_ne_nil lyrics.data (List.map_eq_nil_iff.mp hcontra)
  refine ⟨(splitLines lyrics).map (fun rawLine =>
    if strTrim rawLine = "" then [] else segmentLine mecab (strTrim rawLine)), ?_, ?_, ?_⟩
  · unfold segmentLyrics
    rw [if_neg h, if_neg hlines, if_neg (by simpa using hlines)]
  · exact List.length_map _ _
  · intro i line hline
    have hres : ((splitLines lyrics).map (fun rawLine =>
        if strTrim rawLine = "" then [] else segmentLine mecab (strTrim rawLine)))[i]? =
        some (if strTrim line = "" then [] else segmentLine mecab (strTrim line)) := by
      rw [List.getElem?_map, hline]
      rfl
    constructor
    · intro hblank
      rw [hres, if_pos hblank]
    · intro hnonblank
      refine ⟨segmentLine mecab (strTrim line), ?_, segmentLine_ne_nil mecab (strTrim line) hnonblank⟩
      rw [hres, if_neg hnonblank]

/-- Witness for C9: the spec's example "猫\n\n犬" against an analyzer that
always throws — three lines, the middle one empty, the outer ones
non-empty via the per-character fallback. -/
theorem segmentLyrics_line_safety_witness :
    ∃ res, segmentLyrics (fun _ => none) "猫\n\n犬" = .ok res ∧
      res.length = (splitLines "猫\n\n犬").length ∧
      ∀ (i : Nat) (line : String), (splitLines "猫\n\n犬")[i]? = some line →
        ((strTrim line = "" → res[i]? = some []) ∧
         (strTrim line ≠ "" → ∃ ms, res[i]? = some ms ∧ ms ≠ [])) :=
  segmentLyrics_line_safety (fun _ => none) "猫\n\n犬" (by decide)

/-- C4 counterexample: processing the single line 猫 with the analyzer
reading ネコ (the Katakana shape MeCab produces) yields a segment whose
reading is still the Katakana ネコ, not its Hiragana equivalent ねこ: no
Katakana-to-Hiragana conversion happens anywhere in the pipeline. -/
theorem processLyrics_reading_hiragana_cex :
    (processLyrics nekoOracle (fun _ _ => .fail none) 0
      { entries := [], lastUpdated := 0 } "猫").1 =
      .ok [[ { text := "猫", reading := "ネコ", translation := "No definition available",
               dictionary := some [ "No definition available" ] } ]] ∧
    containsKatakana "ネコ" = true ∧
    hiraganaNormalize "ネコ" = "ねこ" ∧
    "ネコ" ≠ hiraganaNormalize "ネコ" := by
  refine ⟨by rfl, by decide, by decide, by decide⟩

/-- C4 amended: the reading of every segment built by the per-morpheme
loop of `processLyrics` is the analyzer-supplied reading passed through
unchanged (Katakana included), with the surface form substituted only when
the reading is empty; no Hiragana normalization is applied. -/
theorem buildLineSegments_reading_passthrough (morphemes : List MorphemeData)
    (dicts : List (Option DictionaryResult)) :
    (buildLineSegments morphemes dicts).map (fun s => s.reading) =
      morphemes.map (fun m => if m.reading = "" then m.surface else m.reading) := by
  induction morphemes generalizing dicts with
  | nil => rfl
  | cons m ms ih =>
    cases dicts with
    | nil => simp [buildLineSegments, mkSegment, ih]
    | cons d ds => simp [buildLineSegments, mkSegment, ih]

/-! ## Lyrics retriever lemmas and claims C3, C5 -/

theorem searchGenius_events_head (net : LyricsNet) (title : String) (artist : Option String) :
    ∃ rest, (searchGenius net title artist).2 =
      NetEvent.search (buildQuery title artist) :: rest := by
  cases hres : net.searchResults (buildQuery title artist) with
  | none => exact ⟨[], by simp [searchGenius, hres]⟩
  | some searches =>
    cases hempty : searches.isEmpty with
    | true => exact ⟨[NetEvent.search "faded"], by simp [searchGenius, hres, hempty]⟩
    | false =>
      cases hf : searches.filter songFilterOk with
      | nil => exact ⟨[], by simp [searchGenius, hres, hempty, hf]⟩
      | cons firstSong restSongs =>
        cases hl : firstSong.lyricsOutcome with
        | ok lyrics =>
          by_cases hne : lyrics = ""
          · exact ⟨[NetEvent.lyricsFetch firstSong.url],
              by simp [searchGenius, hres, hempty, hf, hl, hne]⟩
          · exact ⟨[NetEvent.lyricsFetch firstSong.url],
              by simp [searchGenius, hres, hempty, hf, hl, hne]⟩
        | error msg =>
          by_cases h404 : (containsStr msg "404" || containsStr msg "NoResultError") = true
          · exact ⟨[NetEvent.lyricsFetch firstSong.url, NetEvent.altFetch firstSong.url],
              by simp [searchGenius, hres, hempty, hf, hl, h404]⟩
          · exact ⟨[NetEvent.lyricsFetch firstSong.url],
              by simp [searchGenius, hres, hempty, hf, hl,
                Bool.eq_false_iff.mpr h404]⟩

/-- C5 counterexample: with a provider whose single candidate's primary
fetch throws a 404 error, the scraping fallback runs after exactly one
primary structured-accessor attempt — there is no 3-attempt retry loop
with backoff and jitter before the fallback. -/
theorem searchGenius_retry_cex :
    (searchGenius net404 "猫" none).2 =
      [NetEvent.search "猫", NetEvent.lyricsFetch "https://example.com/cat",
       NetEvent.altFetch "https://example.com/cat"] ∧
    countLyricsFetches (searchGenius net404 "猫" none).2 = 1 ∧
    ¬ (countLyricsFetches (searchGenius net404 "猫" none).2 = 3) ∧
    (searchGenius net404 "猫" none).1 = some "scraped lyrics" := by
  refine ⟨by decide, by decide, by decide, by rfl⟩

/-- C5 amended: within one `searchGenius` pass the primary fetch via the
search result's structured accessor happens at most once, the scraping
fallback happens at most once, and the fallback is tried only after the
single primary attempt (which must have thrown a 404/NoResultError). -/
theorem searchGenius_primary_attempt_bound (net : LyricsNet) (title : String)
    (artist : Option String) :
    countLyricsFetches (searchGenius net title artist).2 ≤ 1 ∧
    countAltFetches (searchGenius net title artist).2 ≤ 1 ∧
    (countAltFetches (searchGenius net title artist).2 = 1 →
      countLyricsFetches (searchGenius net title artist).2 = 1) := by
  cases hres : net.searchResults (buildQuery title artist) with
  | none =>
    have htr : (searchGenius net title artist).2 =
        [NetEvent.search (buildQuery title artist)] := by simp [searchGenius, hres]
    rw [htr]
    simp [countLyricsFetches, countAltFetches, List.filter]
  | some searches =>
    cases hempty : searches.isEmpty with
    | true =>
      have htr : (searchGenius net title artist).2 =
          [NetEvent.search (buildQuery title artist), NetEvent.search "faded"] := by
        simp [searchGenius, hres, hempty]
      rw [htr]
      simp [countLyricsFetches, countAltFetches, List.filter]
    | false =>
      cases hf : searches.filter songFilterOk with
      | nil =>
        have htr : (searchGenius net title artist).2 =
            [NetEvent.search (buildQuery title artist)] := by
          simp [searchGenius, hres, hempty, hf]
        rw [htr]
        simp [countLyricsFetches, countAltFetches, List.filter]
      | cons firstSong restSongs =>
        cases hl : firstSong.lyricsOutcome with
        | ok lyrics =>
          by_cases hne : lyrics = ""
          · have htr : (searchGenius net title artist).2 =
                [NetEvent.search (buildQuery title artist),
                 NetEvent.lyricsFetch firstSong.url] := by
              simp [searchGenius, hres, hempty, hf, hl, hne]
            rw [htr]
            simp [countLyricsFetches, countAltFetches, List.filter]
          · have htr : (searchGenius net title artist).2 =
                [NetEvent.search (buildQuery title artist),
                 NetEvent.lyricsFetch firstSong.url] := by
              simp [searchGenius, hres, hempty, hf, hl, hne]
            rw [htr]
            simp [countLyricsFetches, countAltFetches, List.filter]
        | error msg =>
          by_cases h404 : (containsStr msg "404" || containsStr msg "NoResultError") = true
          · have htr : (searchGenius net title artist).2 =
                [NetEvent.search (buildQuery title artist),
                 NetEvent.lyricsFetch firstSong.url,
                 NetEvent.altFetch firstSong.url] := by
              simp [searchGenius, hres, hempty, hf, hl, h404]
            rw [htr]
            simp [countLyricsFetches, countAltFetches, List.filter]
          · have htr : (searchGenius net title artist).2 =
                [NetEvent.search (buildQuery title artist),
                 NetEvent.lyricsFetch firstSong.url] := by
              simp [searchGenius, hres, hempty, hf, hl, Bool.eq_false_iff.mpr h404]
            rw [htr]
            simp [countLyricsFetches, countAltFetches, List.filter]

/-- Witness for the amended C5: the 404 provider, where the single
fallback follows the single primary attempt. -/
theorem searchGenius_primary_attempt_bound_witness :
    countAltFetches (searchGenius net404 "猫" none).2 = 1 ∧
    countLyricsFetches (searchGenius net404 "猫" none).2 = 1 :=
  ⟨by decide, (searchGenius_primary_attempt_bound net404 "猫" none).2.2 (by decide)⟩

/-- C3 counterexample: two identical successful `fetchLyrics` calls
perform two provider searches, not at most one — there is no lyrics cache,
and the second call's trace is as long as the first's rather than empty. -/
theorem fetchLyrics_no_cache_cex :
    (fetchLyrics okNet "猫" none).1 = .ok "猫の歌" ∧
    (fetchLyrics okNet "猫" none).2 =
      [NetEvent.search "猫", NetEvent.lyricsFetch "https://example.com/cat"] ∧
    countSearches ((fetchLyrics okNet "猫" none).2 ++ (fetchLyrics okNet "猫" none).2) = 2 ∧
    ¬ (countSearches ((fetchLyrics okNet "猫" none).2 ++
        (fetchLyrics okNet "猫" none).2) ≤ 1) := by
  refine ⟨by rfl, by decide, by decide, by decide⟩

/-- C3 amended: `fetchLyrics` holds no cache, so every call with a
non-blank title performs at least one provider search of its own, and two
identical calls perform exactly twice the remote searches of one call. -/
theorem fetchLyrics_performs_search_each_call (net : LyricsNet) (title : String)
    (artist : Option String) (h : strTrim title ≠ "") :
    countSearches ((fetchLyrics net title artist).2 ++ (fetchLyrics net title artist).2) =
      2 * countSearches (fetchLyrics net title artist).2 ∧
    1 ≤ countSearches (fetchLyrics net title artist).2 := by
  constructor
  · unfold countSearches
    rw [List.filter_append, List.length_append, Nat.two_mul]
  · obtain ⟨rest, hrest⟩ := searchGenius_events_head net title artist
    have hev : (fetchLyrics net title artist).2 = (searchGenius net title artist).2 := by
      unfold fetchLyrics
      rw [if_neg h]
      obtain ⟨o, ev, hoe⟩ : ∃ o ev, searchGenius net title artist = (o, ev) := ⟨_, _, rfl⟩
      rw [hoe]
      cases o <;> rfl
    rw [hev, hrest]
    unfold countSearches
    simp [List.filter_cons]

/-- Witness for the amended C3 at the concrete successful provider. -/
theorem fetchLyrics_performs_search_each_call_witness :
    countSearches ((fetchLyrics okNet "猫" none).2 ++ (fetchLyrics okNet "猫" none).2) =
      2 * countSearches (fetchLyrics okNet "猫" none).2 ∧
    1 ≤ countSearches (fetchLyrics okNet "猫" none).2 :=
  fetchLyrics_performs_search_each_call okNet "猫" none (by decide)

end Kashibotto
